import Mathlib

/-!
Shallow embedding of `AstraMetaDataStore`
(`superduperdb/backends/astradb/metadata.py`).

Documents stored by the backing document database are modelled as
insertion-ordered dictionaries (`Doc`), collections as lists of documents,
and the filter dictionaries the source passes to `find` / `find_one` /
`update_one` / `delete_many` / `count_documents` as a small filter language
(`FCond`, `Filter`) covering exactly the constructs the source uses:
field equality (which, Mongo-style, also matches membership in an array
field), `$exists: 0`, `^`-anchored literal `$regex`, and a top-level `$or`.

Python exceptions raised by the source are modelled by `MErr`; an operation
that can raise returns `Except MErr Store`, so an error leaves no successor
state (the store is unchanged on failure).
-/

namespace AstraMeta

/-- A document field value: string, integer, boolean, array, or embedded
document (`vdoc`, the value a Python dict takes when placed inside another
dict, as happens in `show_jobs`). -/
inductive Value where
  | str (s : String)
  | int (n : Int)
  | bool (b : Bool)
  | arr (elems : List Value)
  | vdoc (fields : List (String × Value))

/-- A document: an insertion-ordered dictionary from field names to values
(a Python `dict` as stored by the document database; keys are unique). -/
abbrev Doc := List (String × Value)

mutual

/-- Equality of values, as used by Mongo-style equality filters and by
Python's `in` on lists of versions. -/
def vbeq : Value → Value → Bool
  | .str a, .str b => a == b
  | .int a, .int b => a == b
  | .bool a, .bool b => a == b
  | .arr a, .arr b => vbeqList a b
  | .vdoc a, .vdoc b => vbeqFields a b
  | _, _ => false

def vbeqList : List Value → List Value → Bool
  | [], [] => true
  | x :: xs, y :: ys => vbeq x y && vbeqList xs ys
  | _, _ => false

def vbeqFields : List (String × Value) → List (String × Value) → Bool
  | [], [] => true
  | (k₁, v₁) :: xs, (k₂, v₂) :: ys => k₁ == k₂ && vbeq v₁ v₂ && vbeqFields xs ys
  | _, _ => false

end

/-- Look up a field of a document (first occurrence). -/
def dget (d : Doc) (k : String) : Option Value :=
  (d.find? (fun p => p.1 == k)).map (·.2)

/-- Python `d[k] = v` on a dict: overwrite in place when the key exists
(keeping its position), append otherwise. -/
def dset : Doc → String → Value → Doc
  | [], k, v => [(k, v)]
  | (k', v') :: rest, k, v =>
      if k' == k then (k, v) :: rest else (k', v') :: dset rest k v

/-- A Python dict literal: entries evaluated left to right, a repeated key
overwriting its earlier value (`show_jobs` writes the key `'status'` twice). -/
def dictLit (entries : List (String × α)) : List (String × α) :=
  entries.foldl (fun d e => go d e.1 e.2) []
where
  go : List (String × α) → String → α → List (String × α)
    | [], k, v => [(k, v)]
    | (k', v') :: rest, k, v =>
        if k' == k then (k, v) :: rest else (k', v') :: go rest k v

/-- Mongo-style equality match of a stored field value against a filter
value: plain equality, or containment when the stored value is an array
(this is how `{'members': unique_id}` matches a `members` list). -/
def valueMatches (stored fv : Value) : Bool :=
  vbeq stored fv ||
    (match stored with
     | .arr xs => xs.any (fun x => vbeq x fv)
     | _ => false)

/-- One filter condition on a named field. -/
inductive FCond where
  /-- `{field: value}` -/
  | eqv (v : Value)
  /-- `{field: {'$exists': 0}}` — the field must be absent -/
  | exists0
  /-- `{field: {'$regex': '^p'}}` with a literal `p` — prefix match -/
  | regexPre (p : String)

/-- A filter document: a conjunction of field conditions, or a top-level
`$or` of such conjunctions. -/
inductive Filter where
  | plainF (conds : List (String × FCond))
  | orF (disjuncts : List (List (String × FCond)))

def matchCond (d : Doc) (k : String) : FCond → Bool
  | .eqv v =>
      match dget d k with
      | some w => valueMatches w v
      | none => false
  | .exists0 => (dget d k).isNone
  | .regexPre p =>
      match dget d k with
      | some (.str s) => s.startsWith p
      | _ => false

def matchConds (cs : List (String × FCond)) (d : Doc) : Bool :=
  cs.all (fun c => matchCond d c.1 c.2)

def matchesFilter (f : Filter) (d : Doc) : Bool :=
  match f with
  | .plainF cs => matchConds cs d
  | .orF ds => ds.any (fun cs => matchConds cs d)

/-- `collection.find(filter=f)`: all matching documents, in insertion order. -/
def find (c : List Doc) (f : Filter) : List Doc :=
  c.filter (matchesFilter f)

/-- `collection.find_one(filter=f)`: first matching document. -/
def find_one (c : List Doc) (f : Filter) : Option Doc :=
  (find c f).head?

/-- `collection.insert_one(document=d)`. -/
def insert_one (c : List Doc) (d : Doc) : List Doc :=
  c ++ [d]

/-- `collection.count_documents(filter=f)`. -/
def count_documents (c : List Doc) (f : Filter) : Nat :=
  (find c f).length

/-- `collection.delete_many(filter=f)`: remove every matching document. -/
def delete_many (c : List Doc) (f : Filter) : List Doc :=
  c.filter (fun d => !matchesFilter f d)

/-- An update document: `{'$set': {...}}` or `{'$push': {field: value}}`. -/
inductive Update where
  | set (kvs : List (String × Value))
  | push (k : String) (v : Value)

def applyUpdate : Update → Doc → Doc
  | .set kvs, d => kvs.foldl (fun d p => dset d p.1 p.2) d
  | .push k v, d =>
      match dget d k with
      | some (.arr xs) => dset d k (.arr (xs ++ [v]))
      | none => dset d k (.arr [v])
      | some _ => d

/-- `collection.update_one(filter=f, update=u)`: update the first matching
document in place. -/
def update_one (c : List Doc) (f : Filter) (u : Update) : List Doc :=
  match c with
  | [] => []
  | d :: ds =>
      if matchesFilter f d then applyUpdate u d :: ds
      else d :: update_one ds f u

/-- Python exceptions raised by the source: `Exception('Component version
already in use ...')` → `inUse`, `FileNotFoundError` → `notFound`,
`ValueError` → `invalidArg`, `KeyError` (a document without the accessed
key) → `keyErr`; `typeErr` stands for the `TypeError` Python's `sorted`
raises on versions that are not all integers. -/
inductive MErr where
  | notFound
  | inUse
  | invalidArg
  | keyErr
  | typeErr
deriving Repr, DecidableEq

/-- The five collections bound in `AstraMetaDataStore.__init__`:
`_meta`, `_cdc_tables`, `_objects`, `_jobs`, `_parent_child_mappings`. -/
structure Store where
  meta_collection : List Doc
  cdc_collection : List Doc
  component_collection : List Doc
  job_collection : List Doc
  parent_child_mappings : List Doc

/-- Modelled from the spec: `Component.make_unique_id` is imported from
`superduperdb.components.component`, which is not among the given sources;
per the spec (§4.2 and glossary) the unique id is the canonical
three-segment string `type_id/identifier/version`. -/
def make_unique_id (type_id identifier : String) (version : Int) : String :=
  type_id ++ "/" ++ identifier ++ "/" ++ toString version

/-- The filter `{'identifier': identifier}` used on the job collection by
`get_job` and `write_output_to_job`. -/
def job_identifier_filter (identifier : String) : Filter :=
  .plainF [("identifier", .eqv (.str identifier))]

/-- The plain `(identifier, type_id, version)` filter used by
`_get_component` (with `allow_hidden`) and by the record deletion in
`delete_component_version`. -/
def component_version_filter (type_id identifier : String) (version : Int) : Filter :=
  .plainF [("identifier", .eqv (.str identifier)), ("type_id", .eqv (.str type_id)),
           ("version", .eqv (.int version))]

/-- The `$or` filter used by `_get_component` without `allow_hidden`:
`hidden: False` or `hidden: {'$exists': 0}`. -/
def visible_component_filter (type_id identifier : String) (version : Int) : Filter :=
  .orF
    [[("identifier", .eqv (.str identifier)), ("type_id", .eqv (.str type_id)),
      ("version", .eqv (.int version)), ("hidden", .eqv (.bool false))],
     [("identifier", .eqv (.str identifier)), ("type_id", .eqv (.str type_id)),
      ("version", .eqv (.int version)), ("hidden", .exists0)]]

/-- The `(type_id, identifier, version)` filter used by
`hide_component_version` (same conjunction as `component_version_filter`,
written in the source's key order). -/
def hide_component_filter (type_id identifier : String) (version : Int) : Filter :=
  .plainF [("type_id", .eqv (.str type_id)), ("identifier", .eqv (.str identifier)),
           ("version", .eqv (.int version))]

/-- The `{'parent': unique_id}` filter on the lineage collection. -/
def parent_edge_filter (unique_id : String) : Filter :=
  .plainF [("parent", .eqv (.str unique_id))]

/-- Whether a document matches all three of `identifier`, `type_id` and
`version` (the conjunction common to the component filters above). -/
def tiv_match (type_id identifier : String) (version : Int) (d : Doc) : Bool :=
  matchCond d "identifier" (.eqv (.str identifier)) &&
  (matchCond d "type_id" (.eqv (.str type_id)) &&
   matchCond d "version" (.eqv (.int version)))

/-- Whether a document carries an integer `version` field. -/
def int_version (d : Doc) : Bool :=
  match dget d "version" with
  | some (.int _) => true
  | _ => false

/-- `create_parent_child(parent, child)`. -/
def create_parent_child (st : Store) (parent child : String) : Store :=
  let pc := insert_one st.parent_child_mappings [("parent", .str parent), ("child", .str child)]
  { st with parent_child_mappings := pc }

/-- `create_component(info)`: default `hidden` to `False` when absent, then
insert. (See `create_component_obj` for the object-level view of the same
code, which makes the in-place mutation of the caller's dict explicit.) -/
def create_component (st : Store) (info : Doc) : Store :=
  let info := if (dget info "hidden").isNone then dset info "hidden" (.bool false) else info
  { st with component_collection := insert_one st.component_collection info }

/-- `get_job(identifier)`. -/
def get_job (st : Store) (identifier : String) : Option Doc :=
  find_one st.job_collection (job_identifier_filter identifier)

/-- The filter `get_latest_version` passes to `find`: on `allow_hidden` a
plain `(identifier, type_id)` match, otherwise an `$or` of `hidden: False`
and `hidden: {'$exists': 0}`. -/
def latest_filter (type_id identifier : String) (allow_hidden : Bool) : Filter :=
  if allow_hidden then
    .plainF [("identifier", .eqv (.str identifier)), ("type_id", .eqv (.str type_id))]
  else
    .orF
      [[("identifier", .eqv (.str identifier)), ("type_id", .eqv (.str type_id)),
        ("hidden", .eqv (.bool false))],
       [("identifier", .eqv (.str identifier)), ("type_id", .eqv (.str type_id)),
        ("hidden", .exists0)]]

/-- The documents `get_latest_version` iterates over. -/
def latest_docs (st : Store) (type_id identifier : String) (allow_hidden : Bool) : List Doc :=
  find st.component_collection (latest_filter type_id identifier allow_hidden)

/-- The deduplicating loop of `get_latest_version`:
`for doc in result: if doc['version'] not in distinct_values: append`.
`doc['version']` on a document without the key raises `KeyError`. -/
def collect_distinct_versions : List Doc → List Value → Except MErr (List Value)
  | [], acc => .ok acc
  | d :: ds, acc =>
      match dget d "version" with
      | none => .error .keyErr
      | some v =>
          collect_distinct_versions ds
            (if acc.any (fun x => vbeq x v) then acc else acc ++ [v])

/-- The collected version values as integers; `none` when some value is not
an integer (Python's `sorted` would raise `TypeError` on such data — the
data model declares `version` an integer, so this path is out of scope). -/
def values_as_ints : List Value → Option (List Int)
  | [] => some []
  | .int n :: vs => (values_as_ints vs).map (fun l => n :: l)
  | _ => none

/-- `sorted(distinct_values)[-1]`: last element of the sorted list, `none`
on the empty list (Python raises `IndexError` there). -/
def sorted_last (xs : List Int) : Option Int :=
  (List.insertionSort (fun a b => a ≤ b) xs).getLast?

/-- `get_latest_version(type_id, identifier, allow_hidden)`: the two
branches of the source differ only in the filter; both deduplicate the
`version` values of the matching documents and return `sorted(...)[-1]`,
turning the `IndexError` of an empty list into `FileNotFoundError`
(`notFound`). -/
def get_latest_version (st : Store) (type_id identifier : String)
    (allow_hidden : Bool) : Except MErr Int :=
  match collect_distinct_versions (latest_docs st type_id identifier allow_hidden) [] with
  | .error e => .error e
  | .ok vals =>
      match values_as_ints vals with
      | none => .error .typeErr
      | some ints =>
          match sorted_last ints with
          | none => .error .notFound
          | some m => .ok m

/-- `show_jobs(status=None)`. The source first reassigns `status` to a dict
(`{}` or `{'status': status}`) and then builds the dict literal
`{'status': status, 'identifier': 1, '_id': 0, 'method': 1, 'status': 1,
'time': 1}` as the `find` filter; the literal contains the key `'status'`
twice, so the second entry (`1`) overwrites the first. -/
def show_jobs (st : Store) (status : Option String) : List Doc :=
  let statusDict : FCond :=
    match status with
    | none => .eqv (.vdoc [])
    | some s => .eqv (.vdoc [("status", .str s)])
  find st.job_collection (.plainF (dictLit
    [("status", statusDict), ("identifier", .eqv (.int 1)), ("_id", .eqv (.int 0)),
     ("method", .eqv (.int 1)), ("status", .eqv (.int 1)), ("time", .eqv (.int 1))]))

/-- `_component_used(type_id, identifier, version)`: counts component
documents whose `members` field matches — a `^identifier/type_id` regex
when no version is given, the exact unique id otherwise. -/
def component_used (st : Store) (type_id identifier : String)
    (version : Option Int) : Bool :=
  let members : FCond :=
    match version with
    | none => .regexPre (identifier ++ "/" ++ type_id)
    | some v => .eqv (.str (make_unique_id type_id identifier v))
  count_documents st.component_collection (.plainF [("members", members)]) != 0

/-- `component_version_has_parents(type_id, identifier, version)`: the
number of lineage edges whose `child` is this unique id. -/
def component_version_has_parents (st : Store) (type_id identifier : String)
    (version : Int) : Nat :=
  count_documents st.parent_child_mappings
    (.plainF [("child", .eqv (.str (make_unique_id type_id identifier version)))])

/-- `delete_component_version(type_id, identifier, version)`: raise when
`_component_used` reports a `members` reference; otherwise delete the
lineage edges whose `parent` is this unique id, then the component
documents matching `(identifier, type_id, version)`. -/
def delete_component_version (st : Store) (type_id identifier : String)
    (version : Int) : Except MErr Store :=
  if component_used st type_id identifier (some version) then
    .error .inUse
  else
    let pc := delete_many st.parent_child_mappings
      (parent_edge_filter (make_unique_id type_id identifier version))
    let st := { st with parent_child_mappings := pc }
    let comp := delete_many st.component_collection
      (component_version_filter type_id identifier version)
    .ok { st with component_collection := comp }

/-- `_get_component(type_id, identifier, version, allow_hidden)`: without
`allow_hidden` the filter is an `$or` of `hidden: False` and
`hidden: {'$exists': 0}`; with it, a plain `(identifier, type_id, version)`
match. -/
def get_component (st : Store) (type_id identifier : String) (version : Int)
    (allow_hidden : Bool) : Option Doc :=
  if !allow_hidden then
    find_one st.component_collection (visible_component_filter type_id identifier version)
  else
    find_one st.component_collection (component_version_filter type_id identifier version)

/-- `write_output_to_job(identifier, msg, stream)`: `ValueError` unless the
stream is exactly `stdout` or `stderr`, else `$push` the message onto that
stream of the first job matching the identifier. -/
def write_output_to_job (st : Store) (identifier msg stream : String) :
    Except MErr Store :=
  if !(stream == "stdout" || stream == "stderr") then
    .error .invalidArg
  else
    let jobs := update_one st.job_collection
      (job_identifier_filter identifier) (.push stream (.str msg))
    .ok { st with job_collection := jobs }

/-- `hide_component_version(type_id, identifier, version)`: `$set`
`hidden: True` on the first matching component document. -/
def hide_component_version (st : Store) (type_id identifier : String)
    (version : Int) : Store :=
  let comp := update_one st.component_collection
    (hide_component_filter type_id identifier version)
    (.set [("hidden", .bool true)])
  { st with component_collection := comp }

/-- The database handle behind the store: collections addressed by name
(`self.db.delete_collection(name)` removes one). -/
abbrev Db := List (String × List Doc)

def delete_collection (db : Db) (name : String) : Db :=
  db.filter (fun p => p.1 != name)

def get_collection (db : Db) (name : String) : Option (List Doc) :=
  (db.find? (fun p => p.1 == name)).map (·.2)

/-- `drop(force)`. The `click.confirm` collaborator is modelled by the
boolean `confirmed`; `logging.warn` by the returned list of log lines.
The source, when the confirmation is declined, logs `'Aborting...'` but
does not return, and then unconditionally deletes the collections named by
`meta_collection`, `component_collection`, `job_collection` and
`parent_child_mappings` — four of the five bound in `__init__`
(`_cdc_tables` is not among them). -/
def drop (db : Db) (force confirmed : Bool) : List String × Db :=
  let logs := if !force && !confirmed then ["Aborting..."] else []
  let db := delete_collection db "_meta"
  let db := delete_collection db "_objects"
  let db := delete_collection db "_jobs"
  let db := delete_collection db "_parent_child_mappings"
  (logs, db)

/-- Object-level rendering of `create_component`, making Python's reference
semantics explicit: the caller passes a reference into a heap of dict
objects, `info['hidden'] = False` mutates the referenced dict in place, and
`insert_one(document=info)` stores the dict's contents at that moment. -/
structure PyState where
  heap : Nat → Doc
  component_collection : List Doc

/-- Write one heap cell. -/
def heapSet (h : Nat → Doc) (r : Nat) (d : Doc) : Nat → Doc :=
  fun r' => if r' == r then d else h r'

def create_component_obj (st : PyState) (ref : Nat) : PyState :=
  let info := st.heap ref
  let heap :=
    if (dget info "hidden").isNone then heapSet st.heap ref (dset info "hidden" (.bool false))
    else st.heap
  { heap := heap,
    component_collection := insert_one st.component_collection (heap ref) }

/-! Concrete states used by the counterexamples and witnesses below. -/

/-- A store holding one component version `t/i/0` that is referenced by
lineage edges both as a parent (of `x/y/0`) and as a child (of `a/b/1`),
but by no `members` field. -/
def exLineageStore : Store :=
  { meta_collection := []
    cdc_collection := []
    component_collection :=
      [[("type_id", .str "t"), ("identifier", .str "i"), ("version", .int 0),
        ("hidden", .bool false)]]
    job_collection := []
    parent_child_mappings :=
      [[("parent", .str "t/i/0"), ("child", .str "x/y/0")],
       [("parent", .str "a/b/1"), ("child", .str "t/i/0")]] }

/-- A store with one running job. -/
def exJobsStore : Store :=
  { meta_collection := []
    cdc_collection := []
    component_collection := []
    job_collection :=
      [[("identifier", .str "j1"), ("status", .str "running"), ("method", .str "m"),
        ("time", .str "t0")]]
    parent_child_mappings := [] }

/-- A store with three versions of `model/clf`: 0 (visible), 1 (no `hidden`
field) and 2 (hidden). -/
def exLatestStore : Store :=
  { meta_collection := []
    cdc_collection := []
    component_collection :=
      [[("type_id", .str "model"), ("identifier", .str "clf"), ("version", .int 0),
        ("hidden", .bool false)],
       [("type_id", .str "model"), ("identifier", .str "clf"), ("version", .int 1)],
       [("type_id", .str "model"), ("identifier", .str "clf"), ("version", .int 2),
        ("hidden", .bool true)]]
    job_collection := []
    parent_child_mappings := [] }

/-- A store with a single visible component version `m/c/0`. -/
def exHideStore : Store :=
  { meta_collection := []
    cdc_collection := []
    component_collection :=
      [[("type_id", .str "m"), ("identifier", .str "c"), ("version", .int 0),
        ("hidden", .bool false)]]
    job_collection := []
    parent_child_mappings := [] }

/-- A store for exercising a successful `delete_component_version`. -/
def exDeleteStore : Store :=
  { meta_collection := [[("key", .str "k"), ("value", .str "v")]]
    cdc_collection := []
    component_collection :=
      [[("type_id", .str "m"), ("identifier", .str "c"), ("version", .int 0)],
       [("type_id", .str "m"), ("identifier", .str "c"), ("version", .int 1)]]
    job_collection := []
    parent_child_mappings :=
      [[("parent", .str "m/c/0"), ("child", .str "d/x/0")],
       [("parent", .str "m/c/1"), ("child", .str "d/x/0")]] }

/-- A job document whose `stdout` already holds one message. -/
def exJobOutDoc : Doc :=
  [("identifier", .str "j1"), ("stdout", .arr [.str "hello"])]

/-- A store with one job whose `stdout` already holds one message. -/
def exJobOutStore : Store :=
  { meta_collection := []
    cdc_collection := []
    component_collection := []
    job_collection := [exJobOutDoc]
    parent_child_mappings := [] }

/-- The stored component document of `exHideStore`. -/
def exHideDoc : Doc :=
  [("type_id", .str "m"), ("identifier", .str "c"), ("version", .int 0),
   ("hidden", .bool false)]

/-- A component record without a `hidden` field, to be inserted. -/
def exNewComponentDoc : Doc :=
  [("type_id", .str "m"), ("identifier", .str "c"), ("version", .int 0)]

/-- An empty store. -/
def exEmptyStore : Store :=
  { meta_collection := [], cdc_collection := [], component_collection := [],
    job_collection := [], parent_child_mappings := [] }

/-- A database handle holding all five managed collections. -/
def exDbDeclined : Db :=
  [("_meta", []), ("_cdc_tables", []), ("_objects", []), ("_jobs", []),
   ("_parent_child_mappings", [])]

/-- A second copy of the full database handle, for the forced-drop facts. -/
def exDbForced : Db :=
  [("_meta", []), ("_cdc_tables", []), ("_objects", []), ("_jobs", []),
   ("_parent_child_mappings", [])]

/-- A heap with one dict object (no `hidden` field) at address 0. -/
def exPyState : PyState :=
  { heap := fun _ => [("type_id", .str "m"), ("identifier", .str "c"), ("version", .int 0)]
    component_collection := [] }

/-! Helper lemmas about the document and collection model. -/

@[simp]
theorem dget_dset_self (d : Doc) (k : String) (v : Value) :
    dget (dset d k v) k = some v := by
  induction d with
  | nil => simp [dget, dset]
  | cons p rest ih =>
      obtain ⟨k', v'⟩ := p
      by_cases h : (k' == k) = true
      · simp [dset, h, dget]
      · simp only [dset, h, Bool.false_eq_true, if_false]
        simpa [dget, List.find?_cons_of_neg, h] using ih

theorem dget_dset_ne (d : Doc) (k₁ k₂ : String) (v : Value) (h : k₂ ≠ k₁) :
    dget (dset d k₁ v) k₂ = dget d k₂ := by
  have hne : (k₁ == k₂) = false := beq_eq_false_iff_ne.mpr (fun hh => h hh.symm)
  induction d with
  | nil => simp [dget, dset, List.find?, hne]
  | cons p rest ih =>
      obtain ⟨k', v'⟩ := p
      by_cases hk : (k' == k₁) = true
      · have hk' : k' = k₁ := beq_iff_eq.mp hk
        subst hk'
        simp [dset, dget, List.find?, hne]
      · have hkf : (k' == k₁) = false := by simpa using hk
        simp only [dset, hkf, Bool.false_eq_true, if_false]
        simp only [dget, List.find?] at ih ⊢
        cases hk2 : (k' == k₂) <;> simp [hk2, ih]

@[simp]
theorem vbeq_str (a b : String) : vbeq (.str a) (.str b) = (a == b) := by
  simp [vbeq]

@[simp]
theorem vbeq_int (a b : Int) : vbeq (.int a) (.int b) = (a == b) := by
  simp [vbeq]

@[simp]
theorem vbeq_bool (a b : Bool) : vbeq (.bool a) (.bool b) = (a == b) := by
  simp [vbeq]

@[simp]
theorem valueMatches_str (a b : String) : valueMatches (.str a) (.str b) = (a == b) := by
  simp [valueMatches]

@[simp]
theorem valueMatches_int (a b : Int) : valueMatches (.int a) (.int b) = (a == b) := by
  simp [valueMatches]

@[simp]
theorem valueMatches_bool (a b : Bool) : valueMatches (.bool a) (.bool b) = (a == b) := by
  simp [valueMatches]

theorem matchCond_ext (d₁ d₂ : Doc) (k : String) (h : dget d₁ k = dget d₂ k) :
    ∀ c, matchCond d₁ k c = matchCond d₂ k c := by
  intro c
  cases c <;> simp [matchCond, h]

theorem head?_filter_append (p : α → Bool) (pre post : List α) (j : α)
    (hpre : ∀ d ∈ pre, p d = false) (hj : p j = true) :
    ((pre ++ j :: post).filter p).head? = some j := by
  induction pre with
  | nil => simp [List.filter_cons, hj]
  | cons a as ih =>
      have ha : p a = false := hpre a (by simp)
      simp only [List.cons_append, List.filter_cons, ha, Bool.false_eq_true, if_false]
      exact ih (fun d hd => hpre d (by simp [hd]))

theorem head?_filter_isSome (p : α → Bool) (l : List α) (d : α)
    (hd : d ∈ l) (hp : p d = true) :
    ((l.filter p).head?).isSome = true := by
  have hmem : d ∈ l.filter p := List.mem_filter.mpr ⟨hd, hp⟩
  cases hfl : l.filter p with
  | nil => rw [hfl] at hmem; simp at hmem
  | cons a as => simp [hfl]

theorem update_one_split (pre post : List Doc) (j : Doc) (f : Filter) (u : Update)
    (hpre : ∀ d ∈ pre, matchesFilter f d = false)
    (hj : matchesFilter f j = true) :
    update_one (pre ++ j :: post) f u = pre ++ applyUpdate u j :: post := by
  induction pre with
  | nil => simp [update_one, hj]
  | cons a as ih =>
      have ha : matchesFilter f a = false := hpre a (by simp)
      simp only [List.cons_append, update_one, ha, Bool.false_eq_true, if_false]
      exact congrArg (a :: ·) (ih (fun d hd => hpre d (by simp [hd])))

theorem applyUpdate_set_single (d : Doc) (k : String) (v : Value) :
    applyUpdate (.set [(k, v)]) d = dset d k v := by
  simp [applyUpdate]

theorem matches_component_version_filter (t i : String) (v : Int) (d : Doc) :
    matchesFilter (component_version_filter t i v) d = tiv_match t i v d := by
  simp [matchesFilter, component_version_filter, matchConds, tiv_match]

theorem matches_hide_filter_iff (t i : String) (v : Int) (d : Doc) :
    matchesFilter (hide_component_filter t i v) d = true ↔ tiv_match t i v d = true := by
  simp only [matchesFilter, hide_component_filter, matchConds, tiv_match,
    List.all_cons, List.all_nil, Bool.and_true, Bool.and_eq_true]
  tauto

theorem matches_job_identifier_filter (i : String) (d : Doc) :
    matchesFilter (job_identifier_filter i) d =
      matchCond d "identifier" (.eqv (.str i)) := by
  simp [matchesFilter, job_identifier_filter, matchConds]

theorem matches_visible_implies_tiv (t i : String) (v : Int) (d : Doc)
    (h : matchesFilter (visible_component_filter t i v) d = true) :
    tiv_match t i v d = true := by
  simp only [matchesFilter, visible_component_filter, matchConds, List.any_cons,
    List.any_nil, List.all_cons, List.all_nil, Bool.and_true, Bool.or_false,
    Bool.or_eq_true, Bool.and_eq_true] at h
  simp only [tiv_match, Bool.and_eq_true]
  tauto

theorem matches_visible_of_hidden_true (t i : String) (v : Int) (d : Doc)
    (h : dget d "hidden" = some (.bool true)) :
    matchesFilter (visible_component_filter t i v) d = false := by
  simp [matchesFilter, visible_component_filter, matchConds, matchCond, h,
    valueMatches]

theorem tiv_match_dset_hidden (t i : String) (v : Int) (j : Doc) (x : Value) :
    tiv_match t i v (dset j "hidden" x) = tiv_match t i v j := by
  unfold tiv_match
  rw [matchCond_ext (dset j "hidden" x) j "identifier"
        (dget_dset_ne j "hidden" "identifier" x (by decide)),
      matchCond_ext (dset j "hidden" x) j "type_id"
        (dget_dset_ne j "hidden" "type_id" x (by decide)),
      matchCond_ext (dset j "hidden" x) j "version"
        (dget_dset_ne j "hidden" "version" x (by decide))]

theorem component_used_iff (st : Store) (t i : String) (v : Int) :
    component_used st t i (some v) = true ↔
      ∃ d ∈ st.component_collection,
        matchCond d "members" (.eqv (.str (make_unique_id t i v))) = true := by
  set fl := Filter.plainF [("members", FCond.eqv (Value.str (make_unique_id t i v)))]
    with hfldef
  have hconn : ∀ d, matchesFilter fl d =
      matchCond d "members" (.eqv (.str (make_unique_id t i v))) := by
    intro d; simp [hfldef, matchesFilter, matchConds]
  cases hfl : List.filter (matchesFilter fl) st.component_collection with
  | nil =>
      have hall := List.filter_eq_nil_iff.mp hfl
      constructor
      · intro h
        exfalso
        simp [component_used, count_documents, find, ← hfldef, hfl] at h
      · rintro ⟨d, hd, hm⟩
        exact absurd (show matchesFilter fl d = true by rw [hconn d]; exact hm) (hall d hd)
  | cons a as =>
      constructor
      · intro _
        have ha : a ∈ List.filter (matchesFilter fl) st.component_collection := by
          rw [hfl]; simp
        have hmem := List.mem_filter.mp ha
        exact ⟨a, hmem.1, by rw [← hconn a]; exact hmem.2⟩
      · intro _
        simp [component_used, count_documents, find, ← hfldef, hfl]

@[simp]
theorem sorted_last_nil : sorted_last ([] : List Int) = none := rfl

theorem sorted_le_getLast :
    ∀ (l : List Int), l.Sorted (fun a b : Int => a ≤ b) →
      ∀ (hl : l ≠ []) (x : Int), x ∈ l → x ≤ l.getLast hl := by
  intro l
  induction l with
  | nil => intro _ hl; cases hl rfl
  | cons a t ih =>
      intro hs hl x hx
      rcases List.sorted_cons.mp hs with ⟨ha, ht⟩
      cases t with
      | nil =>
          simp at hx
          subst hx
          simp [List.getLast]
      | cons b t' =>
          have hne : (b :: t') ≠ [] := by simp
          rw [List.getLast_cons hne]
          rcases List.mem_cons.mp hx with rfl | hx'
          · exact ha _ (List.getLast_mem hne)
          · exact ih ht hne x hx'

theorem sorted_last_mem_max (xs : List Int) (m : Int) (h : sorted_last xs = some m) :
    m ∈ xs ∧ ∀ n ∈ xs, n ≤ m := by
  have hperm := List.perm_insertionSort (fun a b : Int => a ≤ b) xs
  have hsorted := List.sorted_insertionSort (fun a b : Int => a ≤ b) xs
  unfold sorted_last at h
  have hlne : (List.insertionSort (fun a b : Int => a ≤ b) xs) ≠ [] := by
    intro hnil
    rw [hnil] at h
    simp at h
  rw [List.getLast?_eq_getLast_of_ne_nil hlne] at h
  have hm := Option.some.inj h
  constructor
  · exact hperm.mem_iff.mp (hm ▸ List.getLast_mem hlne)
  · intro n hn
    have hn' := hperm.mem_iff.mpr hn
    exact hm ▸ sorted_le_getLast _ hsorted hlne n hn'

theorem sorted_last_eq_none_iff (xs : List Int) : sorted_last xs = none ↔ xs = [] := by
  constructor
  · intro h
    by_contra hne
    have hlne : (List.insertionSort (fun a b : Int => a ≤ b) xs) ≠ [] := by
      intro hnil
      have := List.length_insertionSort (fun a b : Int => a ≤ b) xs
      rw [hnil] at this
      exact hne (List.eq_nil_of_length_eq_zero this.symm)
    unfold sorted_last at h
    rw [List.getLast?_eq_getLast_of_ne_nil hlne] at h
    cases h
  · rintro rfl
    rfl

theorem int_version_exists (d : Doc) (h : int_version d = true) :
    ∃ n : Int, dget d "version" = some (.int n) := by
  cases hv : dget d "version" with
  | none => simp [int_version, hv] at h
  | some w =>
      cases w with
      | int n => exact ⟨n, rfl⟩
      | str s => simp [int_version, hv] at h
      | bool b => simp [int_version, hv] at h
      | arr es => simp [int_version, hv] at h
      | vdoc fs => simp [int_version, hv] at h

theorem collect_distinct_spec :
    ∀ (docs : List Doc) (acc : List Value),
      (∀ d ∈ docs, ∃ n : Int, dget d "version" = some (.int n)) →
      (∀ x ∈ acc, ∃ n : Int, x = .int n) →
      ∃ vs, collect_distinct_versions docs acc = .ok vs ∧
        (∀ x, x ∈ vs ↔ x ∈ acc ∨ ∃ d ∈ docs, dget d "version" = some x) ∧
        (∀ x ∈ vs, ∃ n : Int, x = .int n) := by
  intro docs
  induction docs with
  | nil =>
      intro acc _ hacc
      exact ⟨acc, rfl, by simp, hacc⟩
  | cons d ds ih =>
      intro acc hdocs hacc
      obtain ⟨n, hn⟩ := hdocs d (by simp)
      by_cases hany : (acc.any (fun x => vbeq x (.int n))) = true
      · have hmem : (Value.int n) ∈ acc := by
          obtain ⟨y, hy, hvy⟩ := List.any_eq_true.mp hany
          obtain ⟨m, rfl⟩ := hacc y hy
          have hmn : m = n := by simpa using hvy
          subst hmn
          exact hy
        obtain ⟨vs, hok, hiff, hints⟩ := ih acc (fun d' hd' => hdocs d' (by simp [hd'])) hacc
        refine ⟨vs, ?_, ?_, hints⟩
        · simp [collect_distinct_versions, hn, hany, hok]
        · intro x
          rw [hiff x]
          constructor
          · rintro (hx | ⟨d', hd', hv⟩)
            · exact Or.inl hx
            · exact Or.inr ⟨d', by simp [hd'], hv⟩
          · rintro (hx | ⟨d', hd', hv⟩)
            · exact Or.inl hx
            · rcases List.mem_cons.mp hd' with rfl | hd''
              · have hxn : x = .int n := by
                  rw [hn] at hv
                  exact (Option.some.inj hv).symm
                exact Or.inl (hxn ▸ hmem)
              · exact Or.inr ⟨d', hd'', hv⟩
      · have hacc' : ∀ x ∈ acc ++ [Value.int n], ∃ m : Int, x = .int m := by
          intro x hx
          rcases List.mem_append.mp hx with hx | hx
          · exact hacc x hx
          · simp at hx
            exact ⟨n, hx⟩
        obtain ⟨vs, hok, hiff, hints⟩ :=
          ih (acc ++ [.int n]) (fun d' hd' => hdocs d' (by simp [hd'])) hacc'
        refine ⟨vs, ?_, ?_, hints⟩
        · simp [collect_distinct_versions, hn, hany, hok]
        · intro x
          rw [hiff x]
          constructor
          · rintro (hx | ⟨d', hd', hv⟩)
            · rcases List.mem_append.mp hx with hx | hx
              · exact Or.inl hx
              · simp at hx
                refine Or.inr ⟨d, by simp, ?_⟩
                rw [hx]
                exact hn
            · exact Or.inr ⟨d', by simp [hd'], hv⟩
          · rintro (hx | ⟨d', hd', hv⟩)
            · exact Or.inl (List.mem_append.mpr (Or.inl hx))
            · rcases List.mem_cons.mp hd' with rfl | hd''
              · have hxn : x = .int n := by
                  rw [hn] at hv
                  exact (Option.some.inj hv).symm
                exact Or.inl (List.mem_append.mpr (Or.inr (by simp [hxn])))
              · exact Or.inr ⟨d', hd'', hv⟩

theorem values_as_ints_spec :
    ∀ (vs : List Value), (∀ x ∈ vs, ∃ n : Int, x = .int n) →
      ∃ l, values_as_ints vs = some l ∧
        (∀ n : Int, n ∈ l ↔ (Value.int n) ∈ vs) ∧ (l = [] ↔ vs = []) := by
  intro vs
  induction vs with
  | nil =>
      intro _
      exact ⟨[], rfl, by simp, by simp⟩
  | cons x xs ih =>
      intro hall
      obtain ⟨n, rfl⟩ := hall x (by simp)
      obtain ⟨l, hl, hmem, hnil⟩ := ih (fun y hy => hall y (by simp [hy]))
      refine ⟨n :: l, ?_, ?_, by simp⟩
      · simp [values_as_ints, hl]
      · intro m
        simp [List.mem_cons, hmem m]

theorem get_collection_delete_self (db : Db) (n : String) :
    get_collection (delete_collection db n) n = none := by
  induction db with
  | nil => rfl
  | cons p db ih =>
      obtain ⟨k, c⟩ := p
      by_cases hk : (k == n) = true
      · have h1 : (k != n) = false := by simp [bne, hk]
        have hfil : delete_collection ((k, c) :: db) n = delete_collection db n := by
          simp [delete_collection, List.filter_cons, h1]
        rw [hfil]
        exact ih
      · have h1 : (k != n) = true := by simp [bne, hk]
        have hfil : delete_collection ((k, c) :: db) n = (k, c) :: delete_collection db n := by
          simp [delete_collection, List.filter_cons, h1]
        rw [hfil]
        unfold get_collection
        rw [List.find?_cons_of_neg _ (by simpa using hk)]
        exact ih

theorem get_collection_delete_ne (db : Db) (n m : String) (h : m ≠ n) :
    get_collection (delete_collection db n) m = get_collection db m := by
  induction db with
  | nil => rfl
  | cons p db ih =>
      obtain ⟨k, c⟩ := p
      by_cases hk : (k == n) = true
      · have hkn : k = n := beq_iff_eq.mp hk
        subst hkn
        have h1 : (k != k) = false := by simp
        have hfil : delete_collection ((k, c) :: db) k = delete_collection db k := by
          simp [delete_collection, List.filter_cons, h1]
        have h2 : (k == m) = false := beq_eq_false_iff_ne.mpr (fun hh => h hh.symm)
        rw [hfil, ih]
        simp [get_collection, List.find?, h2]
      · have h1 : (k != n) = true := by simp [bne, hk]
        have hfil : delete_collection ((k, c) :: db) n = (k, c) :: delete_collection db n := by
          simp [delete_collection, List.filter_cons, h1]
        rw [hfil]
        have ih' := ih
        simp only [get_collection] at ih' ⊢
        cases hm : (k == m) <;> simp [List.find?, hm, ih']

theorem drop_snd (db : Db) (force confirmed : Bool) :
    (drop db force confirmed).2 =
      delete_collection (delete_collection (delete_collection
        (delete_collection db "_meta") "_objects") "_jobs") "_parent_child_mappings" := rfl

theorem delete_component_version_ok (st : Store) (t i : String) (v : Int)
    (h : component_used st t i (some v) = false) :
    delete_component_version st t i v = .ok
      { st with
        parent_child_mappings :=
          delete_many st.parent_child_mappings (parent_edge_filter (make_unique_id t i v)),
        component_collection :=
          delete_many st.component_collection (component_version_filter t i v) } := by
  simp [delete_component_version, h]

/-! The claims. -/

/-- C1 (counterexample): in `exLineageStore` the unique id `t/i/0` is
referenced by lineage edges both as a parent (of `x/y/0`) and as a child
(of `a/b/1`), and by no `members` field; the claim states that
`delete_component_version` must then fail with InUse and leave the record
stored, but it succeeds, removes the component record and removes the
outgoing edge. -/
theorem delete_component_version_lineage_cex :
    component_version_has_parents exLineageStore "t" "i" 0 = 1 ∧
    delete_component_version exLineageStore "t" "i" 0 =
      .ok { meta_collection := [], cdc_collection := [], component_collection := [],
            job_collection := [],
            parent_child_mappings := [[("parent", .str "a/b/1"), ("child", .str "t/i/0")]] } :=
  ⟨rfl, rfl⟩

/-- C1 (amended): the usage guard of `delete_component_version` consults
only `members` references: the call fails with InUse exactly when some
stored component document's `members` field equals, or contains, the unique
id `type_id/identifier/version`; lineage edges referencing the version play
no part, and in every other case the call succeeds. -/
theorem delete_component_version_guard_members_only (st : Store) (t i : String) (v : Int) :
    (delete_component_version st t i v = .error .inUse ↔
      ∃ d ∈ st.component_collection,
        matchCond d "members" (.eqv (.str (make_unique_id t i v))) = true) ∧
    (delete_component_version st t i v = .error .inUse ∨
      ∃ st', delete_component_version st t i v = .ok st') := by
  by_cases hu : component_used st t i (some v) = true
  · refine ⟨?_, Or.inl (by simp [delete_component_version, hu])⟩
    constructor
    · intro _
      exact (component_used_iff st t i v).mp hu
    · intro _
      simp [delete_component_version, hu]
  · have hu' : component_used st t i (some v) = false := by simpa using hu
    refine ⟨?_, Or.inr ⟨_, delete_component_version_ok st t i v hu'⟩⟩
    constructor
    · intro hcontra
      rw [delete_component_version_ok st t i v hu'] at hcontra
      cases hcontra
    · intro hex
      exact absurd ((component_used_iff st t i v).mpr hex) (by simp [hu'])

/-- C3 (code_bug evaluation): with `force = false` and the confirmation
collaborator declining, `drop` logs 'Aborting...' but falls through and
deletes the four collections anyway — the confirmation does not protect
anything. -/
theorem drop_declined_still_deletes :
    (drop exDbDeclined false false).1 = ["Aborting..."] ∧
    get_collection exDbDeclined "_meta" = some [] ∧
    get_collection (drop exDbDeclined false false).2 "_meta" = none ∧
    get_collection (drop exDbDeclined false false).2 "_objects" = none ∧
    get_collection (drop exDbDeclined false false).2 "_jobs" = none ∧
    get_collection (drop exDbDeclined false false).2 "_parent_child_mappings" = none :=
  ⟨rfl, rfl, rfl, rfl, rfl, rfl⟩

/-- C4 (code_bug evaluation): `exJobsStore` holds one job with status
"running" (as `get_job` shows), yet `show_jobs` returns no jobs at all:
the duplicated `'status'` key in the source's filter literal overwrites the
status argument with the projection value `1`, and the projection fields
mixed into the filter match no stored job. -/
theorem show_jobs_filter_bug :
    get_job exJobsStore "j1" =
      some [("identifier", .str "j1"), ("status", .str "running"), ("method", .str "m"),
            ("time", .str "t0")] ∧
    show_jobs exJobsStore none = [] ∧
    show_jobs exJobsStore (some "running") = [] :=
  ⟨rfl, rfl, rfl⟩

/-- C7: when the usage guard passes, `delete_component_version` returns a
store in which exactly the lineage edges whose `parent` is the unique id
and exactly the component documents matching
`(identifier, type_id, version)` are gone, and the other three collections
are untouched. -/
theorem delete_component_version_success_spec (st : Store) (t i : String) (v : Int)
    (h : component_used st t i (some v) = false) :
    ∃ st', delete_component_version st t i v = .ok st' ∧
      st'.meta_collection = st.meta_collection ∧
      st'.cdc_collection = st.cdc_collection ∧
      st'.job_collection = st.job_collection ∧
      st'.parent_child_mappings =
        delete_many st.parent_child_mappings (parent_edge_filter (make_unique_id t i v)) ∧
      st'.component_collection =
        delete_many st.component_collection (component_version_filter t i v) ∧
      (∀ d, d ∈ st'.parent_child_mappings ↔
        d ∈ st.parent_child_mappings ∧
          matchesFilter (parent_edge_filter (make_unique_id t i v)) d = false) ∧
      (∀ d, d ∈ st'.component_collection ↔
        d ∈ st.component_collection ∧
          matchesFilter (component_version_filter t i v) d = false) := by
  refine ⟨_, delete_component_version_ok st t i v h, rfl, rfl, rfl, rfl, rfl, ?_, ?_⟩
  · intro d
    simp [delete_many, List.mem_filter]
  · intro d
    simp [delete_many, List.mem_filter]

/-- Witness for C7 at a concrete store: deleting `m/c/0` removes its record
and its outgoing edge, keeping version 1, its edge, and the metadata. -/
theorem delete_component_version_success_spec_witness :
    ∃ st', delete_component_version exDeleteStore "m" "c" 0 = .ok st' ∧
      st'.meta_collection = exDeleteStore.meta_collection ∧
      st'.cdc_collection = exDeleteStore.cdc_collection ∧
      st'.job_collection = exDeleteStore.job_collection ∧
      st'.parent_child_mappings =
        delete_many exDeleteStore.parent_child_mappings
          (parent_edge_filter (make_unique_id "m" "c" 0)) ∧
      st'.component_collection =
        delete_many exDeleteStore.component_collection (component_version_filter "m" "c" 0) ∧
      (∀ d, d ∈ st'.parent_child_mappings ↔
        d ∈ exDeleteStore.parent_child_mappings ∧
          matchesFilter (parent_edge_filter (make_unique_id "m" "c" 0)) d = false) ∧
      (∀ d, d ∈ st'.component_collection ↔
        d ∈ exDeleteStore.component_collection ∧
          matchesFilter (component_version_filter "m" "c" 0) d = false) :=
  delete_component_version_success_spec exDeleteStore "m" "c" 0 rfl

/-- C9 (counterexample): after a forced `drop`, `_cdc_tables` — one of the
five managed collections — is still present while `_meta` is gone; the
claim that all five are deleted fails. -/
theorem drop_keeps_cdc_cex :
    get_collection exDbForced "_cdc_tables" = some [] ∧
    get_collection (drop exDbForced true true).2 "_cdc_tables" = some [] ∧
    get_collection (drop exDbForced true true).2 "_meta" = none :=
  ⟨rfl, rfl, rfl⟩

/-- C9 (amended): when `drop` proceeds it deletes exactly four of the five
managed collections — `_meta`, `_objects`, `_jobs`,
`_parent_child_mappings` — and leaves `_cdc_tables` untouched, whatever the
database contents, the `force` flag and the confirmation answer. -/
theorem drop_deletes_four_collections (db : Db) (force confirmed : Bool) :
    get_collection (drop db force confirmed).2 "_meta" = none ∧
    get_collection (drop db force confirmed).2 "_objects" = none ∧
    get_collection (drop db force confirmed).2 "_jobs" = none ∧
    get_collection (drop db force confirmed).2 "_parent_child_mappings" = none ∧
    get_collection (drop db force confirmed).2 "_cdc_tables" =
      get_collection db "_cdc_tables" := by
  rw [drop_snd]
  refine ⟨?_, ?_, ?_, ?_, ?_⟩
  · rw [get_collection_delete_ne _ _ _ (by decide), get_collection_delete_ne _ _ _ (by decide),
        get_collection_delete_ne _ _ _ (by decide)]
    exact get_collection_delete_self _ _
  · rw [get_collection_delete_ne _ _ _ (by decide), get_collection_delete_ne _ _ _ (by decide)]
    exact get_collection_delete_self _ _
  · rw [get_collection_delete_ne _ _ _ (by decide)]
    exact get_collection_delete_self _ _
  · exact get_collection_delete_self _ _
  · rw [get_collection_delete_ne _ _ _ (by decide), get_collection_delete_ne _ _ _ (by decide),
        get_collection_delete_ne _ _ _ (by decide), get_collection_delete_ne _ _ _ (by decide)]

/-- C10: `create_component` mutates the caller's dict in place — after the
call, the dict the caller still holds (the heap cell it passed) has
`hidden = false`, and the very same dict contents were inserted into the
component collection (no defensive copy). -/
theorem create_component_mutates_caller (st : PyState) (ref : Nat)
    (h : dget (st.heap ref) "hidden" = none) :
    dget ((create_component_obj st ref).heap ref) "hidden" = some (.bool false) ∧
    (create_component_obj st ref).component_collection
      = st.component_collection ++ [(create_component_obj st ref).heap ref] :=
  ⟨by simp [create_component_obj, h, heapSet], rfl⟩

/-- Witness for C10 at a concrete heap: the dict at address 0 lacked
`hidden` before the call and carries `hidden = false` after it. -/
theorem create_component_mutates_caller_witness :
    dget ((create_component_obj exPyState 0).heap 0) "hidden" = some (.bool false) ∧
    (create_component_obj exPyState 0).component_collection
      = exPyState.component_collection ++ [(create_component_obj exPyState 0).heap 0] :=
  create_component_mutates_caller exPyState 0 rfl

theorem matches_visible_eq_false_of_tiv (t i : String) (v : Int) (d : Doc)
    (h : tiv_match t i v d = false) :
    matchesFilter (visible_component_filter t i v) d = false := by
  cases hb : matchesFilter (visible_component_filter t i v) d
  · rfl
  · exact absurd (matches_visible_implies_tiv t i v d hb) (by simp [h])

/-- C2: `get_latest_version` returns the maximum version among the stored
documents passing the visibility filter (all matching documents with
`allow_hidden`, only visible ones without), and fails with NotFound exactly
when that filtered set is empty — provided the matching documents carry
integer versions, as the data model requires. -/
theorem get_latest_version_spec (st : Store) (t i : String) (ah : Bool)
    (hint : (latest_docs st t i ah).all int_version = true) :
    (latest_docs st t i ah = [] ↔ get_latest_version st t i ah = .error .notFound) ∧
    (∀ m : Int, get_latest_version st t i ah = .ok m →
      (∃ d ∈ latest_docs st t i ah, dget d "version" = some (.int m)) ∧
      (∀ d ∈ latest_docs st t i ah, ∀ n : Int, dget d "version" = some (.int n) → n ≤ m)) ∧
    (latest_docs st t i ah ≠ [] → ∃ m : Int, get_latest_version st t i ah = .ok m) := by
  have hint' : ∀ d ∈ latest_docs st t i ah, ∃ n : Int, dget d "version" = some (.int n) :=
    fun d hd => int_version_exists d (List.all_eq_true.mp hint d hd)
  obtain ⟨vs, hok, hiff, hints⟩ :=
    collect_distinct_spec (latest_docs st t i ah) [] hint' (by simp)
  obtain ⟨l, hl, hmem, hnil⟩ := values_as_ints_spec vs hints
  have hvs_nil : vs = [] ↔ latest_docs st t i ah = [] := by
    constructor
    · intro hvs
      by_contra hne
      obtain ⟨d, hd⟩ := List.exists_mem_of_ne_nil _ hne
      obtain ⟨n, hn⟩ := hint' d hd
      have hmm : (Value.int n) ∈ vs := (hiff _).mpr (Or.inr ⟨d, hd, hn⟩)
      rw [hvs] at hmm
      simp at hmm
    · intro hdocs
      rw [List.eq_nil_iff_forall_not_mem]
      intro x hx
      rcases (hiff x).mp hx with hx' | ⟨d, hd, _⟩
      · simp at hx'
      · rw [hdocs] at hd
        simp at hd
  have hsucc : latest_docs st t i ah ≠ [] → ∃ m : Int, get_latest_version st t i ah = .ok m := by
    intro hne
    have hvs : vs ≠ [] := fun hq => hne (hvs_nil.mp hq)
    have hlne : l ≠ [] := fun hq => hvs (hnil.mp hq)
    cases hsl : sorted_last l with
    | none => exact absurd ((sorted_last_eq_none_iff l).mp hsl) hlne
    | some m0 =>
        refine ⟨m0, ?_⟩
        simp [get_latest_version, hok, hl, hsl]
  refine ⟨⟨?_, ?_⟩, ?_, hsucc⟩
  · intro hdocs
    have hvs := hvs_nil.mpr hdocs
    have hlnil : l = [] := hnil.mpr hvs
    simp [get_latest_version, hok, hl, hlnil]
  · intro hres
    by_contra hdocs
    obtain ⟨m, hm⟩ := hsucc hdocs
    rw [hres] at hm
    cases hm
  · intro m hres
    have hsl : sorted_last l = some m := by
      cases hq : sorted_last l with
      | none =>
          have hglv : get_latest_version st t i ah = .error .notFound := by
            simp [get_latest_version, hok, hl, hq]
          rw [hglv] at hres
          cases hres
      | some m0 =>
          have hglv : get_latest_version st t i ah = .ok m0 := by
            simp [get_latest_version, hok, hl, hq]
          rw [hglv] at hres
          obtain rfl : m0 = m := by simpa using hres
          rfl
    obtain ⟨hmeml, hmax⟩ := sorted_last_mem_max l m hsl
    constructor
    · have hin : (Value.int m) ∈ vs := (hmem m).mp hmeml
      rcases (hiff _).mp hin with hx | ⟨d, hd, hv⟩
      · simp at hx
      · exact ⟨d, hd, hv⟩
    · intro d hd n hn
      have hin : (Value.int n) ∈ vs := (hiff _).mpr (Or.inr ⟨d, hd, hn⟩)
      exact hmax n ((hmem n).mpr hin)

/-- Witness for C2 at `exLatestStore` (versions 0 and 1 visible, 2 hidden),
with `allow_hidden = false`. -/
theorem get_latest_version_spec_witness :
    (latest_docs exLatestStore "model" "clf" false = [] ↔
      get_latest_version exLatestStore "model" "clf" false = .error .notFound) ∧
    (∀ m : Int, get_latest_version exLatestStore "model" "clf" false = .ok m →
      (∃ d ∈ latest_docs exLatestStore "model" "clf" false,
        dget d "version" = some (.int m)) ∧
      (∀ d ∈ latest_docs exLatestStore "model" "clf" false,
        ∀ n : Int, dget d "version" = some (.int n) → n ≤ m)) ∧
    (latest_docs exLatestStore "model" "clf" false ≠ [] →
      ∃ m : Int, get_latest_version exLatestStore "model" "clf" false = .ok m) :=
  get_latest_version_spec exLatestStore "model" "clf" false rfl

/-- C5: `create_component` on a record without a `hidden` field inserts it
with `hidden = false` appended, and a subsequent visibility-filtered
`_get_component` on its key finds a record. -/
theorem create_component_hidden_default_spec (st : Store) (t i : String) (v : Int) (r : Doc)
    (hh : dget r "hidden" = none)
    (ht : dget r "type_id" = some (.str t))
    (hi : dget r "identifier" = some (.str i))
    (hv : dget r "version" = some (.int v)) :
    (create_component st r).component_collection
      = st.component_collection ++ [dset r "hidden" (.bool false)] ∧
    (get_component (create_component st r) t i v false).isSome = true := by
  have hcoll : (create_component st r).component_collection
      = st.component_collection ++ [dset r "hidden" (.bool false)] := by
    simp [create_component, hh, insert_one]
  refine ⟨hcoll, ?_⟩
  have h1 : dget (dset r "hidden" (.bool false)) "identifier" = some (.str i) := by
    rw [dget_dset_ne r "hidden" "identifier" _ (by decide)]
    exact hi
  have h2 : dget (dset r "hidden" (.bool false)) "type_id" = some (.str t) := by
    rw [dget_dset_ne r "hidden" "type_id" _ (by decide)]
    exact ht
  have h3 : dget (dset r "hidden" (.bool false)) "version" = some (.int v) := by
    rw [dget_dset_ne r "hidden" "version" _ (by decide)]
    exact hv
  have hmatch : matchesFilter (visible_component_filter t i v)
      (dset r "hidden" (.bool false)) = true := by
    simp [matchesFilter, visible_component_filter, matchConds, matchCond, h1, h2, h3]
  have hgc : get_component (create_component st r) t i v false
      = find_one (create_component st r).component_collection
          (visible_component_filter t i v) := by
    simp [get_component]
  rw [hgc, hcoll]
  unfold find_one find
  exact head?_filter_isSome _ _ (dset r "hidden" (.bool false)) (by simp) hmatch

/-- Witness for C5: inserting a fresh `m/c/0` record without `hidden` into
the empty store. -/
theorem create_component_hidden_default_spec_witness :
    (create_component exEmptyStore exNewComponentDoc).component_collection
      = exEmptyStore.component_collection ++ [dset exNewComponentDoc "hidden" (.bool false)] ∧
    (get_component (create_component exEmptyStore exNewComponentDoc) "m" "c" 0 false).isSome
      = true :=
  create_component_hidden_default_spec exEmptyStore "m" "c" 0 exNewComponentDoc rfl rfl rfl rfl

/-- C6: when the store holds exactly one document matching
`(type_id, identifier, version)`, hiding that version makes the
visibility-filtered lookup miss while the `allow_hidden` lookup still
returns the record (now carrying `hidden = true`). -/
theorem hide_component_version_spec (st : Store) (t i : String) (v : Int)
    (pre post : List Doc) (j : Doc)
    (hsplit : st.component_collection = pre ++ j :: post)
    (hj : tiv_match t i v j = true)
    (hpre : ∀ d ∈ pre, tiv_match t i v d = false)
    (hpost : ∀ d ∈ post, tiv_match t i v d = false) :
    get_component (hide_component_version st t i v) t i v false = none ∧
    get_component (hide_component_version st t i v) t i v true =
      some (dset j "hidden" (.bool true)) := by
  have hupd : (hide_component_version st t i v).component_collection
      = pre ++ dset j "hidden" (.bool true) :: post := by
    have h1 : ∀ d ∈ pre, matchesFilter (hide_component_filter t i v) d = false := by
      intro d hd
      cases hb : matchesFilter (hide_component_filter t i v) d
      · rfl
      · exact absurd ((matches_hide_filter_iff t i v d).mp hb) (by simp [hpre d hd])
    have h2 : matchesFilter (hide_component_filter t i v) j = true :=
      (matches_hide_filter_iff t i v j).mpr hj
    simp only [hide_component_version, hsplit]
    rw [update_one_split pre post j _ _ h1 h2, applyUpdate_set_single]
  constructor
  · have hall : ∀ d ∈ pre ++ dset j "hidden" (.bool true) :: post,
        matchesFilter (visible_component_filter t i v) d = false := by
      intro d hd
      rcases List.mem_append.mp hd with hd | hd
      · exact matches_visible_eq_false_of_tiv t i v d (hpre d hd)
      · rcases List.mem_cons.mp hd with rfl | hd'
        · exact matches_visible_of_hidden_true t i v _ (dget_dset_self j "hidden" (.bool true))
        · exact matches_visible_eq_false_of_tiv t i v d (hpost d hd')
    have hgc : get_component (hide_component_version st t i v) t i v false
        = find_one (hide_component_version st t i v).component_collection
            (visible_component_filter t i v) := by
      simp [get_component]
    rw [hgc, hupd]
    unfold find_one find
    rw [List.filter_eq_nil_iff.mpr (fun a ha => by simp [hall a ha])]
    rfl
  · have hj' : matchesFilter (component_version_filter t i v)
        (dset j "hidden" (.bool true)) = true := by
      rw [matches_component_version_filter, tiv_match_dset_hidden]
      exact hj
    have hpre' : ∀ d ∈ pre, matchesFilter (component_version_filter t i v) d = false := by
      intro d hd
      rw [matches_component_version_filter]
      exact hpre d hd
    have hgc : get_component (hide_component_version st t i v) t i v true
        = find_one (hide_component_version st t i v).component_collection
            (component_version_filter t i v) := by
      simp [get_component]
    rw [hgc, hupd]
    unfold find_one find
    exact head?_filter_append _ pre post _ hpre' hj'

/-- Witness for C6: hiding the single stored version `m/c/0` of
`exHideStore`. -/
theorem hide_component_version_spec_witness :
    get_component (hide_component_version exHideStore "m" "c" 0) "m" "c" 0 false = none ∧
    get_component (hide_component_version exHideStore "m" "c" 0) "m" "c" 0 true =
      some (dset exHideDoc "hidden" (.bool true)) :=
  hide_component_version_spec exHideStore "m" "c" 0 [] [] exHideDoc rfl rfl
    (fun d hd => absurd hd (List.not_mem_nil d))
    (fun d hd => absurd hd (List.not_mem_nil d))

/-- C8: `write_output_to_job` rejects any stream other than exactly
"stdout"/"stderr" with InvalidArgument (returning no new store, so the job
is untouched); on a valid stream it appends the message at the end of that
stream's array on the first job matching the identifier, as `get_job` then
observes. -/
theorem write_output_to_job_spec (st : Store) (identifier msg stream : String) :
    (¬(stream = "stdout" ∨ stream = "stderr") →
      write_output_to_job st identifier msg stream = .error .invalidArg) ∧
    (∀ pre j post xs,
      (stream = "stdout" ∨ stream = "stderr") →
      st.job_collection = pre ++ j :: post →
      (∀ d ∈ pre, matchCond d "identifier" (.eqv (.str identifier)) = false) →
      matchCond j "identifier" (.eqv (.str identifier)) = true →
      dget j stream = some (.arr xs) →
      ∃ st', write_output_to_job st identifier msg stream = .ok st' ∧
        st'.job_collection = pre ++ dset j stream (.arr (xs ++ [Value.str msg])) :: post ∧
        get_job st' identifier = some (dset j stream (.arr (xs ++ [Value.str msg])))) := by
  constructor
  · intro hbad
    have h1 : stream ≠ "stdout" := fun hh => hbad (Or.inl hh)
    have h2 : stream ≠ "stderr" := fun hh => hbad (Or.inr hh)
    have hcond : (stream == "stdout" || stream == "stderr") = false := by
      simp [beq_eq_false_iff_ne, h1, h2]
    simp [write_output_to_job, hcond]
  · intro pre j post xs hs hsplit hpre hj hstream
    have hcond : (stream == "stdout" || stream == "stderr") = true := by
      rcases hs with rfl | rfl <;> simp
    have hne : "identifier" ≠ stream := by
      rcases hs with rfl | rfl <;> decide
    have hpre' : ∀ d ∈ pre, matchesFilter (job_identifier_filter identifier) d = false := by
      intro d hd
      rw [matches_job_identifier_filter]
      exact hpre d hd
    have hjm : matchesFilter (job_identifier_filter identifier) j = true := by
      rw [matches_job_identifier_filter]
      exact hj
    have hupd : update_one st.job_collection (job_identifier_filter identifier)
        (.push stream (.str msg))
        = pre ++ dset j stream (.arr (xs ++ [Value.str msg])) :: post := by
      rw [hsplit, update_one_split pre post j _ _ hpre' hjm]
      simp [applyUpdate, hstream]
    refine ⟨⟨st.meta_collection, st.cdc_collection, st.component_collection,
        pre ++ dset j stream (.arr (xs ++ [Value.str msg])) :: post,
        st.parent_child_mappings⟩, ?_, rfl, ?_⟩
    · have hw : write_output_to_job st identifier msg stream =
          .ok ⟨st.meta_collection, st.cdc_collection, st.component_collection,
            update_one st.job_collection (job_identifier_filter identifier)
              (.push stream (.str msg)), st.parent_child_mappings⟩ := by
        simp [write_output_to_job, hcond]
      rw [hupd] at hw
      exact hw
    · have hj'm : matchesFilter (job_identifier_filter identifier)
          (dset j stream (.arr (xs ++ [Value.str msg]))) = true := by
        rw [matches_job_identifier_filter,
            matchCond_ext _ j "identifier" (dget_dset_ne j stream "identifier" _ hne)]
        exact hj
      unfold get_job find_one find
      exact head?_filter_append _ pre post _ hpre' hj'm

/-- Witness for C8: "stdin" is rejected; appending "world" to a stdout that
holds "hello" yields the sequence hello, world. -/
theorem write_output_to_job_spec_witness :
    write_output_to_job exJobOutStore "j1" "x" "stdin" = .error .invalidArg ∧
    (∃ st', write_output_to_job exJobOutStore "j1" "world" "stdout" = .ok st' ∧
      st'.job_collection =
        [] ++ dset exJobOutDoc "stdout" (.arr ([.str "hello"] ++ [Value.str "world"])) :: [] ∧
      get_job st' "j1" =
        some (dset exJobOutDoc "stdout" (.arr ([.str "hello"] ++ [Value.str "world"])))) :=
  ⟨(write_output_to_job_spec exJobOutStore "j1" "x" "stdin").1 (by decide),
   (write_output_to_job_spec exJobOutStore "j1" "world" "stdout").2 [] exJobOutDoc []
     [.str "hello"] (Or.inl rfl) rfl
     (fun d hd => absurd hd (List.not_mem_nil d)) rfl rfl⟩

end AstraMeta
